import Mathlib

/-
Verification of the my-shelf bookshelf manager (src/main.py, src/extract_text.py)
against its natural-language specification.

The program is embedded shallowly:

* Timestamps produced by datetime.now().isoformat() are modelled as naturals
  ordered by time; ISO-8601 local-time strings produced by a monotone clock
  compare the same way their times do.
* The filesystem outside the shelf is a function from paths to an abstract
  FileBehavior recording what each library operation would do on that path
  (whether the path exists, what fitz.open plus page iteration yields, what
  epub.read_epub plus tag stripping yields, and what read_text yields).
* The shelf root directory is a list of entries, each a plain file or a
  subdirectory holding named files; process exit with status 1 is the error
  case of Except (or the err constructor of AddResult, which carries the
  on-disk state at the moment of exit).
-/

namespace MyShelf

/-- Timestamp value of datetime.now().isoformat(), abstracted as a natural
number ordered by time. -/
abbrev Timestamp := Nat

/-- The metadata dictionary written to the per-record JSON file
(main.py lines 78-84). -/
structure Metadata where
  id : String
  title : String
  memo : String
  created_at : Timestamp
  updated_at : Timestamp
deriving DecidableEq, Repr

/-- Outcome of fitz.open together with the page loop of
extract_text_from_pdf (extract_text.py lines 27-32): either every page is
loaded and its plain text extracted, yielding the page texts in order, or
some step raises an exception. -/
inductive PdfOpenResult where
  | doc (pages : List String)
  | raises
deriving DecidableEq, Repr

/-- Outcome of epub.read_epub together with the document loop of
extract_text_from_epub (extract_text.py lines 58-68): either every content
document is decoded and tag-stripped, yielding the document texts in
container order, or one of the three caught exception classes is raised. -/
inductive EpubReadResult where
  | book (docs : List String)
  | fileNotFound
  | epubError
  | otherError
deriving DecidableEq, Repr

instance {α : Type} [DecidableEq α] : DecidableEq (Except Unit α) := fun x y =>
  match x, y with
  | .ok a, .ok b =>
    if h : a = b then .isTrue (h ▸ rfl) else .isFalse (fun hh => h (Except.ok.inj hh))
  | .error (), .error () => .isTrue rfl
  | .ok _, .error _ => .isFalse (fun hh => Except.noConfusion hh)
  | .error _, .ok _ => .isFalse (fun hh => Except.noConfusion hh)

/-- What each relevant library operation does on one path: whether
Path.exists() is true, and the outcomes of the PDF open, the EPUB read and
Path.read_text(). The error case of readText is an exception escaping
read_text. -/
structure FileBehavior where
  present : Bool
  fitzOpen : PdfOpenResult
  epubRead : EpubReadResult
  readText : Except Unit String
deriving DecidableEq, Repr

/-- Split a character list at slash characters. -/
def splitSlash : List Char → List (List Char)
  | [] => [[]]
  | c :: rest =>
    match splitSlash rest with
    | [] => [[]]
    | p :: ps => if c = '/' then [] :: p :: ps else (c :: p) :: ps

/-- Python pathlib PurePath.name: the final path component. Empty and
single-dot components are dropped, as pathlib does when parsing a path
string. -/
def pyName (p : String) : String :=
  let parts := (splitSlash p.toList).filter (fun c => !c.isEmpty && c != ['.'])
  match parts.getLast? with
  | some n => String.mk n
  | none => ""

/-- Python pathlib PurePath.suffix: the extension of the final component,
taken from the last dot provided that dot is neither the first character
nor the last one. -/
def pySuffix (p : String) : String :=
  let cs := (pyName p).toList
  match cs.reverse.findIdx? (fun c => c == '.') with
  | none => ""
  | some k =>
    let i := cs.length - 1 - k
    if 0 < i ∧ i < cs.length - 1 then String.mk (cs.drop i) else ""

/-- Python str.lower on the characters of a string; the suffixes compared
against are ASCII, where Char.toLower agrees with Python. -/
def lowerStr (s : String) : String :=
  String.mk (s.toList.map Char.toLower)

/-- extract_text_from_pdf (extract_text.py lines 12-39): concatenate the
page texts in page order; any exception is caught and turned into None. -/
def extract_text_from_pdf (r : PdfOpenResult) : Option String :=
  match r with
  | .doc pages => some (pages.foldl (fun acc t => acc ++ t) "")
  | .raises => none

/-- extract_text_from_epub (extract_text.py lines 42-86): concatenate the
tag-stripped document texts in container order, each followed by the empty
string as in the source; the three except clauses all return None. -/
def extract_text_from_epub (r : EpubReadResult) : Option String :=
  match r with
  | .book docs => some (docs.foldl (fun acc t => acc ++ (t ++ "")) "")
  | .fileNotFound => none
  | .epubError => none
  | .otherError => none

/-- extract_text (extract_text.py lines 90-125): dispatch on the lowercased
suffix; .pdf and .epub are handled by the recovering extractors, .txt by a
bare read_text whose exception escapes (the error case), and anything else
yields None after a warning. -/
def extract_text (fs : String → FileBehavior) (path : String) :
    Except Unit (Option String) :=
  let suffix := lowerStr (pySuffix path)
  if suffix = ".pdf" then .ok (extract_text_from_pdf (fs path).fitzOpen)
  else if suffix = ".epub" then .ok (extract_text_from_epub (fs path).epubRead)
  else if suffix = ".txt" then ((fs path).readText).map some
  else .ok none

/-- Content of one file inside a record directory: a text file written by
write_text, a verbatim copy of a source file made by shutil.copy2, or the
JSON serialization of a metadata dictionary. -/
inductive FileContent where
  | text (s : String)
  | blob (b : FileBehavior)
  | meta (m : Metadata)
deriving DecidableEq, Repr

/-- The files of one record directory, as name-content pairs. -/
abbrev DirFiles := List (String × FileContent)

/-- One immediate child of the shelf root: a plain file or a record
directory. -/
inductive RootEntry where
  | file (name : String)
  | dir (name : String) (files : DirFiles)
deriving DecidableEq, Repr

/-- The name of a root entry. -/
def RootEntry.name : RootEntry → String
  | .file n => n
  | .dir n _ => n

/-- The shelf root: whether the directory exists, and its entries when it
does. -/
structure Shelf where
  present : Bool
  entries : List RootEntry
deriving DecidableEq, Repr

/-- Look a file up by name inside a record directory. -/
def lookupFile : DirFiles → String → Option FileContent
  | [], _ => none
  | f :: rest, n => if f.1 == n then some f.2 else lookupFile rest n

/-- Write a file inside a record directory, overwriting a file of the same
name if one exists. -/
def setFile (files : DirFiles) (n : String) (c : FileContent) : DirFiles :=
  match files with
  | [] => [(n, c)]
  | f :: rest => if f.1 == n then (n, c) :: rest else f :: setFile rest n c

/-- The first root entry of the given name, if any. -/
def findEntry : List RootEntry → String → Option RootEntry
  | [], _ => none
  | e :: rest, id => if e.name == id then some e else findEntry rest id

/-- Path.exists() for the child of the shelf root named id: true when the
root exists and holds an entry of that name, file or directory. -/
def entryExists (s : Shelf) (id : String) : Bool :=
  s.present && (findEntry s.entries id).isSome

/-- The files of the record directory named id, when the root exists and
the entry of that name is a directory. -/
def findDir (s : Shelf) (id : String) : Option DirFiles :=
  if s.present then
    match findEntry s.entries id with
    | some (.dir _ files) => some files
    | _ => none
  else none

/-- The metadata stored at {root}/{id}/{id}.json, when present and valid. -/
def metadataOf (s : Shelf) (id : String) : Option Metadata :=
  match findDir s id with
  | some files =>
    match lookupFile files (id ++ ".json") with
    | some (.meta m) => some m
    | _ => none
  | none => none

/-- Result of handle_add: normal return or exit with status 1, in both
cases carrying the on-disk state at that moment. -/
inductive AddResult where
  | ok (s : Shelf)
  | err (s : Shelf)
deriving DecidableEq, Repr

/-- The files of a freshly created record directory, given the Option
result t of extract_text: the copy made by shutil.copy2, then the text file
when t is truthy (Python: if text), then the metadata JSON
(main.py lines 66-87). -/
def addFiles (fs : String → FileBehavior) (file_path book_id title memo : String)
    (now : Timestamp) (t : Option String) : DirFiles :=
  let f0 : DirFiles := [(pyName file_path, .blob (fs file_path))]
  let f1 : DirFiles :=
    match t with
    | some txt => if txt = "" then f0 else setFile f0 (book_id ++ ".txt") (.text txt)
    | none => f0
  setFile f1 (book_id ++ ".json") (.meta ⟨book_id, title, memo, now, now⟩)

/-- handle_add (main.py lines 38-89): exit 1 when the source is missing or
the id is taken; mkdir raises when the shelf root is missing; create the
directory, copy the source, run extraction (whose exception would escape
after the copy), optionally write the text file, write the metadata. -/
def handle_add (fs : String → FileBehavior) (file_path book_id title memo : String)
    (now : Timestamp) (s : Shelf) : AddResult :=
  if !(fs file_path).present then .err s
  else if entryExists s book_id then .err s
  else if !s.present then .err s
  else
    match extract_text fs file_path with
    | .error _ =>
      .err ⟨true, s.entries ++ [.dir book_id [(pyName file_path, .blob (fs file_path))]]⟩
    | .ok t =>
      .ok ⟨true, s.entries ++ [.dir book_id (addFiles fs file_path book_id title memo now t)]⟩

/-- main (main.py line 323) passes args.memo or "" to handle_add: a missing
and an empty --memo both become the empty string. -/
def argMemo : Option String → String
  | none => ""
  | some m => if m = "" then "" else m

/-- Field update rule of handle_edit (main.py lines 148-152): the new value
replaces the old one only when it is truthy, that is, supplied and
non-empty. -/
def updStr : Option String → String → String
  | none, old => old
  | some v, old => if v = "" then old else v

/-- Replace the files of the first root entry named id with the given
files. -/
def updateDirEntry : List RootEntry → String → DirFiles → List RootEntry
  | [], _, _ => []
  | e :: rest, id, files =>
    if e.name == id then .dir id files :: rest
    else e :: updateDirEntry rest id files

/-- handle_edit (main.py lines 118-160): exit 1 when the record directory
or the metadata file is missing; otherwise load the metadata, overwrite
title and memo when truthy, stamp updated_at, and write the file back. A
metadata file that does not hold a metadata dictionary makes json.load
raise, which is the remaining error case. -/
def handle_edit (book_id : String) (title memo : Option String)
    (now : Timestamp) (s : Shelf) : Except Unit Shelf :=
  if !(entryExists s book_id) then .error ()
  else
    match findDir s book_id with
    | none => .error ()
    | some files =>
      match lookupFile files (book_id ++ ".json") with
      | some (.meta m) =>
        let m2 : Metadata :=
          { m with
            title := updStr title m.title
            memo := updStr memo m.memo
            updated_at := now }
        .ok ⟨s.present, updateDirEntry s.entries book_id
              (setFile files (book_id ++ ".json") (.meta m2))⟩
      | some _ => .error ()
      | none => .error ()

/-- Path.read_text() on a stored file. Reading a metadata JSON file as raw
text is never performed by the program (the handlers read only {id}.txt this
way, which is only ever written through write_text or copy2), so that case
is left as an error. -/
def readFileContent : FileContent → Except Unit String
  | .text s => .ok s
  | .blob b => b.readText
  | .meta _ => .error ()

/-- handle_show (main.py lines 92-115): exit 1 when the record directory or
its text file is missing; otherwise print the text file contents, the
print call appending one newline to what is written on stdout. -/
def handle_show (book_id : String) (s : Shelf) : Except Unit String :=
  if !(entryExists s book_id) then .error ()
  else
    match findDir s book_id with
    | none => .error ()
    | some files =>
      match lookupFile files (book_id ++ ".txt") with
      | none => .error ()
      | some c => (readFileContent c).map (fun t => t ++ "\n")

/-- handle_info (main.py lines 219-247): exit 1 when the record directory
or the metadata file is missing; otherwise the metadata structure printed
as pretty JSON. -/
def handle_info (book_id : String) (s : Shelf) : Except Unit Metadata :=
  if !(entryExists s book_id) then .error ()
  else
    match findDir s book_id with
    | none => .error ()
    | some files =>
      match lookupFile files (book_id ++ ".json") with
      | some (.meta m) => .ok m
      | some _ => .error ()
      | none => .error ()

/-- handle_delete (main.py lines 163-183): exit 1 when no child of the root
is named id; shutil.rmtree removes the whole directory tree, and raises
when the child is a plain file. -/
def handle_delete (book_id : String) (s : Shelf) : Except Unit Shelf :=
  if !(entryExists s book_id) then .error ()
  else
    match findDir s book_id with
    | some _ => .ok ⟨s.present, s.entries.filter (fun e => e.name != book_id)⟩
    | none => .error ()

/-- The collection loop of handle_list (main.py lines 200-211): directories
with a loadable {name}/{name}.json contribute their metadata in iteration
order, entries without one are skipped, and a json file not holding a
metadata dictionary makes json.load raise. -/
def loadBooks : List RootEntry → Except Unit (List Metadata)
  | [] => .ok []
  | .file _ :: rest => loadBooks rest
  | .dir n files :: rest =>
    match lookupFile files (n ++ ".json") with
    | none => loadBooks rest
    | some (.meta m) => (loadBooks rest).map (fun ms => m :: ms)
    | some _ => .error ()

/-- handle_list (main.py lines 186-216): when the root is missing or has no
entries, only a log line and no CSV at all (the none case); otherwise the
header and the collected metadata rows. -/
def handle_list (s : Shelf) : Except Unit (Option (List Metadata)) :=
  if !s.present || s.entries.isEmpty then .ok none
  else (loadBooks s.entries).map some

/-- One CSV field as csv.DictWriter renders it: quoted, with inner quotes
doubled, exactly when it holds a separator, a quote or a line break. -/
def csvField (s : String) : String :=
  if s.toList.any (fun c => c == ',' || c == '"' || c == '\n' || c == '\r')
  then "\"" ++ s.replace "\"" "\"\"" ++ "\""
  else s

/-- One CSV record for one metadata row, in the fixed column order of
main.py line 214. -/
def csvRow (m : Metadata) : String :=
  String.intercalate "," [csvField m.id, csvField m.title, csvField m.memo,
    csvField (toString m.created_at), csvField (toString m.updated_at)]

/-- The CSV header record written by writeheader. -/
def csvHeader : String := "id,title,memo,created_at,updated_at"

/-- The CSV records handle_list writes to stdout, one list element per
written record. -/
def csvLines : Option (List Metadata) → List String
  | none => []
  | some ms => csvHeader :: ms.map csvRow

/-- One creation request, for iterated handle_add. -/
structure AddReq where
  path : String
  id : String
  title : String
  memo : String
deriving DecidableEq, Repr

/-- Perform a sequence of handle_add calls, stopping at the first exit. -/
def addAll (fs : String → FileBehavior) (now : Timestamp) :
    List AddReq → Shelf → AddResult
  | [], s => .ok s
  | r :: rs, s =>
    match handle_add fs r.path r.id r.title r.memo now s with
    | .ok s2 => addAll fs now rs s2
    | .err s2 => .err s2

/-- A root entry that is a well-formed record directory: a directory whose
name equals the id of the metadata stored in its {name}.json file. -/
def goodEntry (e : RootEntry) : Prop :=
  ∃ files m, e = RootEntry.dir m.id files ∧
    lookupFile files (m.id ++ ".json") = some (.meta m)

/-- Concrete behavior used by the witnesses: an existing plain-text file
whose read yields the string hello world. -/
def wB : FileBehavior := ⟨true, .raises, .otherError, .ok "hello world"⟩

/-- Witness filesystem: every path behaves like wB. -/
def wFs : String → FileBehavior := fun _ => wB

/-- Witness filesystem whose read_text raises on every path. -/
def wFsBad : String → FileBehavior := fun _ => ⟨true, .raises, .otherError, .error ()⟩

/-- The shelf produced by adding b.txt as record x into an empty shelf with
clock 0 under wFs. -/
def wS1 : Shelf :=
  ⟨true, [.dir "x" [("b.txt", .blob wB), ("x.txt", .text "hello world"),
    ("x.json", .meta ⟨"x", "T", "", 0, 0⟩)]]⟩

/-- The shelf produced by adding a.txt as record x and b.txt as record y
into an empty shelf with clock 0 under wFs. -/
def wS2 : Shelf :=
  ⟨true, [.dir "x" [("a.txt", .blob wB), ("x.txt", .text "hello world"),
    ("x.json", .meta ⟨"x", "T", "M", 0, 0⟩)],
   .dir "y" [("b.txt", .blob wB), ("y.txt", .text "hello world"),
    ("y.json", .meta ⟨"y", "U", "N", 0, 0⟩)]]⟩

/-- Witness shelf for the edit claims: one record x with title T, memo M
and both timestamps 0. -/
def wSE : Shelf := ⟨true, [.dir "x" [("x.json", .meta ⟨"x", "T", "M", 0, 0⟩)]]⟩

/-- Witness shelf holding an orphan record directory x with no files at
all, in particular no metadata and no text file. -/
def wSOrphan : Shelf := ⟨true, [.dir "x" []]⟩

end MyShelf

namespace MyShelf

theorem lookupFile_setFile_self (files : DirFiles) (n : String) (c : FileContent) :
    lookupFile (setFile files n c) n = some c := by
  induction files with
  | nil => simp [setFile, lookupFile]
  | cons f rest ih =>
    by_cases h : f.1 == n
    · simp [setFile, h, lookupFile]
    · simp [setFile, h, lookupFile, ih]

theorem lookupFile_setFile_ne (files : DirFiles) {n n2 : String} (c : FileContent)
    (h : n2 ≠ n) : lookupFile (setFile files n2 c) n = lookupFile files n := by
  induction files with
  | nil => simp [setFile, lookupFile, h]
  | cons f rest ih =>
    by_cases hf : f.1 == n2
    · have hf1 : f.1 = n2 := by simpa using hf
      simp [setFile, hf, lookupFile, h, hf1]
    · simp [setFile, hf, lookupFile, ih]

theorem findEntry_append_left_none {es : List RootEntry} {id : String}
    (h : findEntry es id = none) (l2 : List RootEntry) :
    findEntry (es ++ l2) id = findEntry l2 id := by
  induction es with
  | nil => simp
  | cons e rest ih =>
    by_cases he : e.name == id
    · simp [findEntry, he] at h
    · simp only [findEntry, he] at h
      simpa [findEntry, he] using ih h

theorem findEntry_none_of_exists_false {s : Shelf} {id : String}
    (hp : s.present = true) (h : entryExists s id = false) :
    findEntry s.entries id = none := by
  unfold entryExists at h
  rw [hp] at h
  simp only [Bool.true_and] at h
  cases hfe : findEntry s.entries id with
  | none => rfl
  | some e => rw [hfe] at h; simp at h

theorem findDir_some_entryExists {s : Shelf} {id : String} {files : DirFiles}
    (h : findDir s id = some files) :
    entryExists s id = true ∧ s.present = true := by
  unfold findDir at h
  by_cases hp : s.present
  · refine ⟨?_, hp⟩
    rw [if_pos hp] at h
    unfold entryExists
    cases hfe : findEntry s.entries id with
    | none => rw [hfe] at h; simp at h
    | some e => simp [hp, hfe]
  · rw [if_neg hp] at h; simp at h

theorem findDir_append_new {es : List RootEntry} {id : String}
    (h : findEntry es id = none) (files : DirFiles) :
    findDir ⟨true, es ++ [.dir id files]⟩ id = some files ∧
    entryExists ⟨true, es ++ [.dir id files]⟩ id = true := by
  have hfe : findEntry (es ++ [RootEntry.dir id files]) id =
      some (RootEntry.dir id files) := by
    rw [findEntry_append_left_none h]
    simp [findEntry, RootEntry.name]
  constructor
  · unfold findDir
    simp [hfe]
  · unfold entryExists
    simp [hfe]

end MyShelf

namespace MyShelf

theorem findEntry_filter_self (es : List RootEntry) (id : String) :
    findEntry (es.filter (fun e => e.name != id)) id = none := by
  induction es with
  | nil => rfl
  | cons e rest ih =>
    rw [List.filter_cons]
    by_cases he : e.name == id
    · have hb : (e.name != id) = false := by simp [bne, he]
      simpa [hb] using ih
    · have hb : (e.name != id) = true := by simp [bne, he]
      simpa [hb, findEntry, he] using ih

theorem handle_add_ok {fs : String → FileBehavior} {p id title memo : String}
    {now : Timestamp} {s s' : Shelf}
    (h : handle_add fs p id title memo now s = .ok s') :
    (fs p).present = true ∧ entryExists s id = false ∧ s.present = true ∧
    ∃ t, extract_text fs p = .ok t ∧
      s' = ⟨true, s.entries ++ [.dir id (addFiles fs p id title memo now t)]⟩ := by
  unfold handle_add at h
  cases h1 : (fs p).present <;> rw [h1] at h
  case false => exact absurd h (by simp)
  case true =>
    cases h2 : entryExists s id <;> rw [h2] at h
    case true => exact absurd h (by simp)
    case false =>
      cases h3 : s.present <;> rw [h3] at h
      case false => exact absurd h (by simp)
      case true =>
        refine ⟨rfl, rfl, rfl, ?_⟩
        rw [if_neg (by simp), if_neg (by simp), if_neg (by simp)] at h
        cases hext : extract_text fs p with
        | error e => rw [hext] at h; exact AddResult.noConfusion h
        | ok t =>
          rw [hext] at h
          exact ⟨t, rfl, (AddResult.ok.inj h).symm⟩

/-- Claim C2: creating with an id already present as a child of the shelf
root exits with status 1 before writing anything, so the resulting on-disk
state, including every file of the existing record, is exactly the input
state. -/
theorem add_duplicate_id_unchanged (fs : String → FileBehavior)
    (p id title memo : String) (now : Timestamp) (s : Shelf)
    (h : entryExists s id = true) :
    handle_add fs p id title memo now s = .err s := by
  unfold handle_add
  split_ifs <;> rfl

theorem add_duplicate_id_unchanged_witness :
    handle_add wFs "c.txt" "x" "T2" "M2" 1 wS1 = .err wS1 :=
  add_duplicate_id_unchanged wFs "c.txt" "x" "T2" "M2" 1 wS1 (by decide)

/-- Claim C6: extract_text dispatches on the case-insensitively lowered
file extension; each of the three supported extensions reaches its
handler, and every other extension yields None without raising, whatever
the filesystem holds at the path. -/
theorem extract_dispatch_by_suffix (fs : String → FileBehavior) (p : String) :
    (lowerStr (pySuffix p) ∉ ([".pdf", ".epub", ".txt"] : List String) →
      extract_text fs p = .ok none) ∧
    (lowerStr (pySuffix p) = ".pdf" →
      extract_text fs p = .ok (extract_text_from_pdf (fs p).fitzOpen)) ∧
    (lowerStr (pySuffix p) = ".epub" →
      extract_text fs p = .ok (extract_text_from_epub (fs p).epubRead)) ∧
    (lowerStr (pySuffix p) = ".txt" →
      extract_text fs p = ((fs p).readText).map some) := by
  refine ⟨fun h => ?_, fun h => ?_, fun h => ?_, fun h => ?_⟩
  · simp only [List.mem_cons, List.not_mem_nil, or_false] at h
    push_neg at h
    simp [extract_text, h.1, h.2.1, h.2.2]
  · simp [extract_text, h]
  · simp [extract_text, h]
  · simp [extract_text, h]

theorem extract_dispatch_by_suffix_witness :
    extract_text wFs "doc.docx" = .ok none ∧
    extract_text wFs "a/b.PDF" = .ok (extract_text_from_pdf (wFs "a/b.PDF").fitzOpen) ∧
    extract_text wFs "c.ePub" = .ok (extract_text_from_epub (wFs "c.ePub").epubRead) :=
  ⟨(extract_dispatch_by_suffix wFs "doc.docx").1 (by decide),
   (extract_dispatch_by_suffix wFs "a/b.PDF").2.1 (by decide),
   (extract_dispatch_by_suffix wFs "c.ePub").2.2.1 (by decide)⟩

/-- Claim C7: on a path with a .txt extension, a successful read is
returned verbatim and a read failure escapes extract_text as an exception,
while the .pdf and .epub branches always return a value and never let an
exception escape. -/
theorem extract_txt_no_recovery (fs : String → FileBehavior) (p : String)
    (h : lowerStr (pySuffix p) = ".txt") :
    (∀ t, (fs p).readText = .ok t → extract_text fs p = .ok (some t)) ∧
    ((fs p).readText = .error () → extract_text fs p = .error ()) ∧
    (∀ q, lowerStr (pySuffix q) = ".pdf" ∨ lowerStr (pySuffix q) = ".epub" →
      ∃ o, extract_text fs q = .ok o) := by
  refine ⟨fun t ht => ?_, fun ht => ?_, fun q hq => ?_⟩
  · simp [extract_text, h, ht, Except.map]
  · simp [extract_text, h, ht, Except.map]
  · rcases hq with hq | hq
    · exact ⟨extract_text_from_pdf (fs q).fitzOpen, by simp [extract_text, hq]⟩
    · exact ⟨extract_text_from_epub (fs q).epubRead, by simp [extract_text, hq]⟩

theorem extract_txt_no_recovery_witness :
    extract_text wFs "a.txt" = .ok (some "hello world") ∧
    extract_text wFsBad "a.txt" = .error () ∧
    ∃ o, extract_text wFsBad "b.pdf" = .ok o :=
  ⟨(extract_txt_no_recovery wFs "a.txt" (by decide)).1 "hello world" rfl,
   (extract_txt_no_recovery wFsBad "a.txt" (by decide)).2.1 rfl,
   (extract_txt_no_recovery wFsBad "a.txt" (by decide)).2.2 "b.pdf" (Or.inl (by decide))⟩

/-- Claim C9: handle_delete succeeds whenever the child of the root named
id is a directory, whatever that directory holds, including an orphan with
no metadata or text file; the whole directory is removed, so afterwards no
child of that name exists. -/
theorem delete_requires_only_directory (s : Shelf) (id : String) (files : DirFiles)
    (h : findDir s id = some files) :
    handle_delete id s =
      .ok ⟨s.present, s.entries.filter (fun e => e.name != id)⟩ ∧
    entryExists ⟨s.present, s.entries.filter (fun e => e.name != id)⟩ id = false ∧
    findDir ⟨s.present, s.entries.filter (fun e => e.name != id)⟩ id = none := by
  obtain ⟨hex, hp⟩ := findDir_some_entryExists h
  refine ⟨?_, ?_, ?_⟩
  · simp [handle_delete, hex, h]
  · simp [entryExists, findEntry_filter_self]
  · simp [findDir, findEntry_filter_self]

theorem delete_requires_only_directory_witness :
    handle_delete "x" wSOrphan = .ok ⟨true, []⟩ ∧
    entryExists ⟨true, []⟩ "x" = false :=
  ⟨(delete_requires_only_directory wSOrphan "x" [] rfl).1,
   (delete_requires_only_directory wSOrphan "x" [] rfl).2.1⟩

end MyShelf

namespace MyShelf

/-- The shelf wSE after an edit that changed nothing but the updated_at
stamp, now 1. -/
def wSE2 : Shelf := ⟨true, [.dir "x" [("x.json", .meta ⟨"x", "T", "M", 0, 1⟩)]]⟩

theorem metadataOf_some_elim {s : Shelf} {id : String} {m : Metadata}
    (hm : metadataOf s id = some m) :
    ∃ files, findDir s id = some files ∧
      lookupFile files (id ++ ".json") = some (.meta m) := by
  cases hfd : findDir s id with
  | none => simp [metadataOf, hfd] at hm
  | some files =>
    cases hlf : lookupFile files (id ++ ".json") with
    | none => simp [metadataOf, hfd, hlf] at hm
    | some c =>
      cases c with
      | text t => simp [metadataOf, hfd, hlf] at hm
      | blob b => simp [metadataOf, hfd, hlf] at hm
      | meta m2 =>
        have hm2 : m2 = m := by simpa [metadataOf, hfd, hlf] using hm
        exact ⟨files, rfl, by rw [hlf, hm2]⟩

theorem findEntry_name {es : List RootEntry} {id : String} {e : RootEntry}
    (h : findEntry es id = some e) : e.name = id := by
  induction es with
  | nil => simp [findEntry] at h
  | cons a rest ih =>
    by_cases ha : a.name == id
    · simp only [findEntry, ha, if_pos] at h
      rw [← Option.some.inj h]
      exact eq_of_beq ha
    · simp only [findEntry, ha, if_neg, Bool.false_eq_true, not_false_eq_true] at h
      exact ih h

theorem findDir_some_elim {s : Shelf} {id : String} {files : DirFiles}
    (h : findDir s id = some files) :
    s.present = true ∧ findEntry s.entries id = some (.dir id files) := by
  unfold findDir at h
  by_cases hp : s.present
  · rw [if_pos hp] at h
    refine ⟨hp, ?_⟩
    cases hfe : findEntry s.entries id with
    | none => rw [hfe] at h; simp at h
    | some e =>
      rw [hfe] at h
      cases e with
      | file n => simp at h
      | dir nm fls =>
        have hnm : nm = id := by simpa [RootEntry.name] using findEntry_name hfe
        have hfl : fls = files := by simpa using h
        rw [hnm, hfl]
  · rw [if_neg hp] at h; simp at h

theorem findEntry_update {es : List RootEntry} {id : String}
    (h : (findEntry es id).isSome = true) (files2 : DirFiles) :
    findEntry (updateDirEntry es id files2) id = some (.dir id files2) := by
  induction es with
  | nil => simp [findEntry] at h
  | cons e rest ih =>
    by_cases he : e.name == id
    · simp only [updateDirEntry]
      rw [if_pos he]
      simp [findEntry, RootEntry.name]
    · simp only [findEntry, he, if_neg, Bool.false_eq_true, not_false_eq_true] at h
      simp only [updateDirEntry]
      rw [if_neg he]
      simp only [findEntry]
      rw [if_neg he]
      exact ih h

theorem handle_edit_spec {s : Shelf} {id : String} {m : Metadata}
    (hm : metadataOf s id = some m) (ti mo : Option String) (now : Timestamp) :
    ∃ s2, handle_edit id ti mo now s = .ok s2 ∧ s2.present = true ∧
      metadataOf s2 id =
        some ⟨m.id, updStr ti m.title, updStr mo m.memo, m.created_at, now⟩ := by
  obtain ⟨files, hfd, hlf⟩ := metadataOf_some_elim hm
  obtain ⟨hp, hfe⟩ := findDir_some_elim hfd
  have hex : entryExists s id = true := by simp [entryExists, hp, hfe]
  refine ⟨⟨s.present, updateDirEntry s.entries id
    (setFile files (id ++ ".json")
      (.meta ⟨m.id, updStr ti m.title, updStr mo m.memo, m.created_at, now⟩))⟩,
    ?_, hp, ?_⟩
  · simp [handle_edit, hex, hfd, hlf]
  · have hupd := @findEntry_update s.entries id (by simp [hfe]) (setFile files (id ++ ".json")
      (FileContent.meta ⟨m.id, updStr ti m.title, updStr mo m.memo, m.created_at, now⟩))
    simp only [metadataOf, findDir, hp, if_pos, hupd, lookupFile_setFile_self]

theorem handle_edit_congr (id : String) (now : Timestamp) (s : Shelf)
    {t1 t2 m1 m2 : Option String}
    (ht : ∀ x, updStr t1 x = updStr t2 x) (hmm2 : ∀ x, updStr m1 x = updStr m2 x) :
    handle_edit id t1 m1 now s = handle_edit id t2 m2 now s := by
  have h1 : updStr t1 = updStr t2 := funext ht
  have h2 : updStr m1 = updStr m2 := funext hmm2
  unfold handle_edit
  rw [h1, h2]

theorem updStr_eq_empty {o : Option String} {x : String} (h : updStr o x = "") :
    x = "" := by
  cases o with
  | none => exact h
  | some v =>
    by_cases hv : v = ""
    · simpa [updStr, hv] using h
    · rw [updStr, if_neg hv] at h
      exact absurd h hv

/-- Claim C4: editing an existing record with only a non-empty title keeps
the memo, editing with only a non-empty memo keeps the title, both set
updated_at to the current clock, and every successful edit leaves
updated_at strictly above its prior value, the clock having advanced past
the stored stamp. -/
theorem edit_partial_update_advances (s : Shelf) (id : String) (m : Metadata)
    (now : Timestamp) (hm : metadataOf s id = some m) (hclock : m.updated_at < now) :
    (∀ t, t ≠ "" → ∃ s2, handle_edit id (some t) none now s = .ok s2 ∧
      metadataOf s2 id = some ⟨m.id, t, m.memo, m.created_at, now⟩) ∧
    (∀ v, v ≠ "" → ∃ s2, handle_edit id none (some v) now s = .ok s2 ∧
      metadataOf s2 id = some ⟨m.id, m.title, v, m.created_at, now⟩) ∧
    (∀ ti mo s2, handle_edit id ti mo now s = .ok s2 →
      ∃ m2, metadataOf s2 id = some m2 ∧ m.updated_at < m2.updated_at) := by
  refine ⟨fun t ht => ?_, fun v hv => ?_, fun ti mo s2 h => ?_⟩
  · obtain ⟨s2, he, _, hmeta⟩ := handle_edit_spec hm (some t) none now
    exact ⟨s2, he, by simpa [updStr, ht] using hmeta⟩
  · obtain ⟨s2, he, _, hmeta⟩ := handle_edit_spec hm none (some v) now
    exact ⟨s2, he, by simpa [updStr, hv] using hmeta⟩
  · obtain ⟨s2x, he, _, hmeta⟩ := handle_edit_spec hm ti mo now
    rw [he] at h
    obtain rfl := Except.ok.inj h
    exact ⟨_, hmeta, hclock⟩

theorem edit_partial_update_advances_witness :
    (∃ s2, handle_edit "x" (some "T2") none 1 wSE = .ok s2 ∧
      metadataOf s2 "x" = some ⟨"x", "T2", "M", 0, 1⟩) ∧
    (∃ s2, handle_edit "x" none (some "M2") 1 wSE = .ok s2 ∧
      metadataOf s2 "x" = some ⟨"x", "T", "M2", 0, 1⟩) ∧
    (∃ m2, metadataOf wSE2 "x" = some m2 ∧ 0 < m2.updated_at) :=
  have H := edit_partial_update_advances wSE "x" ⟨"x", "T", "M", 0, 0⟩ 1 rfl
    (by decide)
  ⟨H.1 "T2" (by decide), H.2.1 "M2" (by decide), H.2.2 none none wSE2 rfl⟩

/-- Claim C5: supplying an empty string for title or memo to handle_edit is
indistinguishable from not supplying the argument, and no edit of an
existing record can turn a non-empty title or memo into the empty
string. -/
theorem edit_empty_string_noop (id : String) (now : Timestamp) (s : Shelf) :
    (∀ mo, handle_edit id (some "") mo now s = handle_edit id none mo now s) ∧
    (∀ ti, handle_edit id ti (some "") now s = handle_edit id ti none now s) ∧
    (∀ ti mo s2 m m2, metadataOf s id = some m →
      handle_edit id ti mo now s = .ok s2 → metadataOf s2 id = some m2 →
      (m2.title = "" → m.title = "") ∧ (m2.memo = "" → m.memo = "")) := by
  refine ⟨fun mo => ?_, fun ti => ?_, fun ti mo s2 m m2 hm he hm2 => ?_⟩
  · exact handle_edit_congr id now s (fun x => by simp [updStr]) (fun x => rfl)
  · exact handle_edit_congr id now s (fun x => rfl) (fun x => by simp [updStr])
  · obtain ⟨s2x, hex, _, hmeta⟩ := handle_edit_spec hm ti mo now
    rw [hex] at he
    obtain rfl := Except.ok.inj he
    rw [hm2] at hmeta
    obtain rfl := Option.some.inj hmeta
    exact ⟨fun h0 => updStr_eq_empty h0, fun h0 => updStr_eq_empty h0⟩

theorem edit_empty_string_noop_witness :
    handle_edit "x" (some "") (some "Z") 1 wSE = handle_edit "x" none (some "Z") 1 wSE ∧
    handle_edit "x" (some "Z") (some "") 1 wSE = handle_edit "x" (some "Z") none 1 wSE ∧
    ((Metadata.title ⟨"x", "T", "M", 0, 1⟩ = "" → Metadata.title ⟨"x", "T", "M", 0, 0⟩ = "") ∧
     (Metadata.memo ⟨"x", "T", "M", 0, 1⟩ = "" → Metadata.memo ⟨"x", "T", "M", 0, 0⟩ = "")) :=
  ⟨(edit_empty_string_noop "x" 1 wSE).1 (some "Z"),
   (edit_empty_string_noop "x" 1 wSE).2.1 (some "Z"),
   (edit_empty_string_noop "x" 1 wSE).2.2 none none wSE2
     ⟨"x", "T", "M", 0, 0⟩ ⟨"x", "T", "M", 0, 1⟩ rfl rfl rfl⟩

end MyShelf

namespace MyShelf

theorem addFiles_json (fs : String → FileBehavior) (p id title memo : String)
    (now : Timestamp) (t : Option String) :
    lookupFile (addFiles fs p id title memo now t) (id ++ ".json") =
      some (.meta ⟨id, title, memo, now, now⟩) := by
  simp only [addFiles]
  exact lookupFile_setFile_self _ _ _

/-- Claim C1: a successful create followed by read-metadata returns a
metadata structure whose id, title and memo are exactly the values given
to create; the command line turns an omitted memo into the empty string. -/
theorem create_info_roundtrip (fs : String → FileBehavior)
    (p id title memo : String) (now : Timestamp) (s s2 : Shelf)
    (h : handle_add fs p id title memo now s = AddResult.ok s2) :
    (∃ m, handle_info id s2 = .ok m ∧ m.id = id ∧ m.title = title ∧ m.memo = memo) ∧
    argMemo none = "" := by
  obtain ⟨-, hex, hp, t, hext, hs⟩ := handle_add_ok h
  have hfe : findEntry s.entries id = none := findEntry_none_of_exists_false hp hex
  obtain ⟨hfd, hex2⟩ := findDir_append_new hfe (addFiles fs p id title memo now t)
  subst hs
  refine ⟨⟨⟨id, title, memo, now, now⟩, ?_, rfl, rfl, rfl⟩, rfl⟩
  simp [handle_info, hex2, hfd, addFiles_json]

theorem create_info_roundtrip_witness :
    (∃ m, handle_info "x" wS1 = .ok m ∧ m.id = "x" ∧ m.title = "T" ∧ m.memo = "") ∧
    argMemo none = "" :=
  create_info_roundtrip wFs "b.txt" "x" "T" "" 0 ⟨true, []⟩ wS1 rfl

/-- Claim C8 counterexample: for the record created from a plain-text
source whose contents are exactly hello world, handle_show writes the text
followed by the newline appended by print, so stdout is not exactly the
string hello world. -/
theorem show_verbatim_cx :
    handle_add wFs "b.txt" "x" "T" "" 0 ⟨true, []⟩ = AddResult.ok wS1 ∧
    handle_show "x" wS1 = .ok "hello world\n" ∧
    ¬ handle_show "x" wS1 = .ok "hello world" :=
  ⟨rfl, rfl, by decide⟩

/-- Claim C8 as amended: after creating a record from a plain-text source
whose read yields exactly hello world, handle_show writes the extracted
text followed by one newline appended by print, that is hello world plus a
newline, to stdout. -/
theorem show_appends_newline (fs : String → FileBehavior)
    (p id title memo : String) (now : Timestamp) (s s2 : Shelf)
    (h1 : lowerStr (pySuffix p) = ".txt")
    (h2 : (fs p).readText = .ok "hello world")
    (h : handle_add fs p id title memo now s = AddResult.ok s2) :
    handle_show id s2 = .ok "hello world\n" := by
  obtain ⟨-, hex, hp, t, hext, hs⟩ := handle_add_ok h
  have hfe : findEntry s.entries id = none := findEntry_none_of_exists_false hp hex
  obtain ⟨hfd, hex2⟩ := findDir_append_new hfe (addFiles fs p id title memo now t)
  have hText : extract_text fs p = .ok (some "hello world") := by
    simp [extract_text, h1, h2, Except.map]
  have ht : t = some "hello world" := Except.ok.inj (hext.symm.trans hText)
  have hne : id ++ ".txt" ≠ id ++ ".json" := by
    intro he
    have hlen := congrArg String.length he
    rw [String.length_append, String.length_append] at hlen
    have e1 : (".txt" : String).length = 4 := rfl
    have e2 : (".json" : String).length = 5 := rfl
    rw [e1, e2] at hlen
    omega
  have hlt : lookupFile (addFiles fs p id title memo now (some "hello world"))
      (id ++ ".txt") = some (.text "hello world") := by
    simp only [addFiles]
    rw [lookupFile_setFile_ne _ _ (Ne.symm hne)]
    simp [lookupFile_setFile_self]
  subst hs
  subst ht
  have happ : ("hello world" : String) ++ "\n" = "hello world\n" := rfl
  simp [handle_show, hex2, hfd, hlt, readFileContent, Except.map, happ]

theorem show_appends_newline_witness :
    handle_show "x" wS1 = .ok "hello world\n" :=
  show_appends_newline wFs "b.txt" "x" "T" "" 0 ⟨true, []⟩ wS1 rfl rfl rfl

end MyShelf

namespace MyShelf

/-- Creation requests used by the list witness. -/
def wReqs : List AddReq := [⟨"a.txt", "x", "T", "M"⟩, ⟨"b.txt", "y", "U", "N"⟩]

/-- Witness shelf whose entries are a plain file and a directory without a
matching metadata file: no valid record at all. -/
def wSJunk : Shelf := ⟨true, [.file "junk", .dir "d" [("readme", .text "hi")]]⟩

theorem loadBooks_skip (es : List RootEntry)
    (h : ∀ e ∈ es, (∃ n, e = RootEntry.file n) ∨
      ∃ n files, e = RootEntry.dir n files ∧ lookupFile files (n ++ ".json") = none) :
    loadBooks es = .ok [] := by
  induction es with
  | nil => rfl
  | cons e rest ih =>
    have hrest : loadBooks rest = .ok [] := ih (fun e2 h2 => h e2 (by simp [h2]))
    rcases h e (by simp) with ⟨n, rfl⟩ | ⟨n, files, rfl, hnone⟩
    · simpa [loadBooks] using hrest
    · simpa [loadBooks, hnone] using hrest

theorem loadBooks_good (es : List RootEntry) (h : ∀ e ∈ es, goodEntry e) :
    ∃ ms, loadBooks es = .ok ms ∧ ms.map Metadata.id = es.map RootEntry.name := by
  induction es with
  | nil => exact ⟨[], rfl, rfl⟩
  | cons e rest ih =>
    obtain ⟨files, m, rfl, hlf⟩ := h e (by simp)
    obtain ⟨ms, hms, hmap⟩ := ih (fun e2 h2 => h e2 (by simp [h2]))
    refine ⟨m :: ms, ?_, ?_⟩
    · simp [loadBooks, hlf, hms, Except.map]
    · simp [RootEntry.name, hmap]

theorem addAll_ok_spec (fs : String → FileBehavior) (now : Timestamp)
    (reqs : List AddReq) :
    ∀ s s2, s.present = true → addAll fs now reqs s = .ok s2 →
      s2.present = true ∧ ∃ L, s2.entries = s.entries ++ L ∧
        L.map RootEntry.name = reqs.map AddReq.id ∧ ∀ e ∈ L, goodEntry e := by
  induction reqs with
  | nil =>
    intro s s2 hp h
    obtain rfl := AddResult.ok.inj h
    exact ⟨hp, [], by simp, rfl, by simp⟩
  | cons r rs ih =>
    intro s s2 hp h
    unfold addAll at h
    cases hadd : handle_add fs r.path r.id r.title r.memo now s with
    | err s3 => rw [hadd] at h; exact absurd h (by simp)
    | ok s3 =>
      rw [hadd] at h
      obtain ⟨-, -, -, t, -, hs3⟩ := handle_add_ok hadd
      obtain ⟨hp3, L, hents, hmap, hgood⟩ := ih s3 s2 (by rw [hs3]) h
      refine ⟨hp3,
        RootEntry.dir r.id (addFiles fs r.path r.id r.title r.memo now t) :: L,
        ?_, ?_, ?_⟩
      · rw [hents, hs3]; simp
      · simp [RootEntry.name, hmap]
      · intro e he
        rw [List.mem_cons] at he
        rcases he with rfl | he
        · exact ⟨addFiles fs r.path r.id r.title r.memo now t,
            ⟨r.id, r.title, r.memo, now, now⟩, rfl,
            addFiles_json fs r.path r.id r.title r.memo now t⟩
        · exact hgood e he

/-- Claim C3: listing a freshly created empty shelf writes no CSV at all,
and after a non-empty sequence of creations with pairwise distinct ids
into an initially empty shelf, handle_list writes exactly one header
record plus one data record per created record, with each created id on
exactly one data record. -/
theorem list_rows_after_creates (fs : String → FileBehavior) (now : Timestamp)
    (reqs : List AddReq) (s2 : Shelf)
    (hne : reqs ≠ [])
    (hnd : (reqs.map AddReq.id).Nodup)
    (h : addAll fs now reqs ⟨true, []⟩ = .ok s2) :
    (∃ ms, handle_list s2 = .ok (some ms) ∧
      (csvLines (some ms)).length = reqs.length + 1 ∧
      ∀ r ∈ reqs, (ms.map Metadata.id).count r.id = 1) ∧
    handle_list ⟨true, []⟩ = .ok none ∧
    csvLines none = [] := by
  obtain ⟨hp2, L, hents, hmap, hgood⟩ := addAll_ok_spec fs now reqs ⟨true, []⟩ s2 rfl h
  rw [List.nil_append] at hents
  obtain ⟨ms, hms, hmsmap⟩ := loadBooks_good L hgood
  have hids : ms.map Metadata.id = reqs.map AddReq.id := hmsmap.trans hmap
  have hLne : s2.entries ≠ [] := by
    rw [hents]
    intro h0
    apply hne
    have hmapnil : reqs.map AddReq.id = [] := by rw [← hmap, h0]; rfl
    simpa using hmapnil
  have hemp : s2.entries.isEmpty = false := by
    cases hE : s2.entries with
    | nil => exact absurd hE hLne
    | cons a l => rfl
  refine ⟨⟨ms, ?_, ?_, ?_⟩, rfl, rfl⟩
  · simp [handle_list, hp2, hemp, hents, hms, Except.map]
    exact hents ▸ hLne
  · have hlen := congrArg List.length hids
    simpa [csvLines] using hlen
  · intro r hr
    rw [hids]
    exact List.count_eq_one_of_mem hnd (List.mem_map_of_mem _ hr)

theorem list_rows_after_creates_witness :
    (∃ ms, handle_list wS2 = .ok (some ms) ∧
      (csvLines (some ms)).length = wReqs.length + 1 ∧
      ∀ r ∈ wReqs, (ms.map Metadata.id).count r.id = 1) ∧
    handle_list ⟨true, []⟩ = .ok none ∧
    csvLines none = [] :=
  list_rows_after_creates wFs 0 wReqs wS2 (by decide) (by decide) rfl

/-- Claim C10: when the root exists and is non-empty but no entry is a
valid record, because each entry is a plain file or a directory without a
matching metadata file, handle_list writes the header record and no data
records, unlike the empty root, which produces no CSV at all. -/
theorem list_header_when_no_valid_records (s : Shelf)
    (hp : s.present = true) (hne : s.entries ≠ [])
    (hbad : ∀ e ∈ s.entries, (∃ n, e = RootEntry.file n) ∨
      ∃ n files, e = RootEntry.dir n files ∧ lookupFile files (n ++ ".json") = none) :
    handle_list s = .ok (some []) ∧ csvLines (some []) = [csvHeader] ∧
    handle_list ⟨true, []⟩ = .ok none := by
  have hemp : s.entries.isEmpty = false := by
    cases hE : s.entries with
    | nil => exact absurd hE hne
    | cons a l => rfl
  refine ⟨?_, rfl, rfl⟩
  simp [handle_list, hp, hemp, loadBooks_skip s.entries hbad, Except.map]

theorem list_header_when_no_valid_records_witness :
    handle_list wSJunk = .ok (some []) ∧ csvLines (some []) = [csvHeader] :=
  have H := list_header_when_no_valid_records wSJunk rfl (by decide)
    (by
      intro e he
      simp only [wSJunk, List.mem_cons, List.not_mem_nil, or_false] at he
      rcases he with rfl | rfl
      · exact Or.inl ⟨"junk", rfl⟩
      · exact Or.inr ⟨"d", [("readme", .text "hi")], rfl, rfl⟩)
  ⟨H.1, H.2.1⟩

end MyShelf
